import Mathlib

/-!
Verification development for the dd-pg client prediction / snapshot
reconciliation core.

The Rust sources are shallowly embedded:

* `Demo` — the demo recorder / viewer chunk pipeline from
  `src/game/client-demo/src/lib.rs` (`write_chunk`, `read_chunks`,
  `serialize_and_write_chunk`, `try_write_chunks`, `can_add_chunk`,
  `add_snapshot`, `add_event`, the drop flush and the writer thread's
  final header computation).
* `SG` — the dual-copy game state from
  `src/game/shared-game/src/state.rs` (`tick_impl`, `tick`, `pred_tick`,
  `set_player_inp_impl`, `build_pred_from_stages`,
  `build_from_snapshot`, `build_from_snapshot_for_pred`).
* `Client` — the snapshot branch of `NetworkLogic::on_msg` from
  `src/src/client/components/network_logic.rs` (diff resolution against
  the snapshot storage, the handled-snapshot-id gate, the input replay
  loop and the prediction-timer tail).

Byte strings are `List Nat`; machine integers are `Nat` (the Rust code
uses `u64` arithmetic only through saturating or in-range operations on
the embedded paths, noted at each definition).  External collaborator
crates (`zstd`, `bin_patch`, `bincode`, the physics step) are
parameters of the embedded functions, constrained exactly by their
documented contracts where a theorem needs them.
-/

namespace Demo

/-- Structural worker for `serNat`; the fuel argument only serves
structural termination and is irrelevant while it bounds the value
(`serNatGo_irrel`). -/
def serNatGo : Nat → Nat → List Nat
  | 0, n => [n]
  | fuel + 1, n => if n < 128 then [n] else (n % 128 + 128) :: serNatGo fuel (n / 128)

/-- Variable-length integer code, modelling bincode's standard (varint)
encoding of `u64` values.  Only the properties shared with bincode are
used: the code is prefix free, decodes to the encoded value, and the
decoder reports how many bytes it consumed. -/
def serNat (n : Nat) : List Nat := serNatGo n n

theorem serNatGo_irrel (n : Nat) : ∀ f₁ f₂, n ≤ f₁ → n ≤ f₂ → serNatGo f₁ n = serNatGo f₂ n := by
  induction n using Nat.strong_induction_on with
  | _ n ih =>
    intro f₁ f₂ h₁ h₂
    match f₁, f₂ with
    | 0, 0 => rfl
    | 0, f + 1 =>
      have hn : n = 0 := Nat.le_zero.mp h₁
      subst hn
      simp [serNatGo]
    | f + 1, 0 =>
      have hn : n = 0 := Nat.le_zero.mp h₂
      subst hn
      simp [serNatGo]
    | f + 1, g + 1 =>
      simp only [serNatGo]
      by_cases hn : n < 128
      · simp [hn]
      · rw [if_neg hn, if_neg hn]
        have hdiv : n / 128 < n := Nat.div_lt_self (by omega) (by norm_num)
        rw [ih (n / 128) hdiv f g (by omega) (by omega)]

/-- The defining recurrence of `serNat`. -/
theorem serNat_eq (n : Nat) :
    serNat n = if n < 128 then [n] else (n % 128 + 128) :: serNat (n / 128) := by
  by_cases hn : n < 128
  · cases n with
    | zero => simp [serNat, serNatGo]
    | succ m => simp [serNat, serNatGo, hn]
  · have hpos : 0 < n := by omega
    obtain ⟨m, rfl⟩ := Nat.exists_eq_succ_of_ne_zero (Nat.pos_iff_ne_zero.mp hpos)
    show serNatGo (m + 1) (m + 1) = _
    simp only [serNatGo, if_neg hn]
    rw [serNatGo_irrel ((m + 1) / 128) m ((m + 1) / 128)
      (by omega) (le_refl _)]
    rfl

/-- Decoder for `serNat`; returns the decoded value and the remaining
bytes (equivalently, the consumed length that bincode's
`decode_from_slice` reports). -/
def deserNat : List Nat → Option (Nat × List Nat)
  | [] => none
  | b :: rest =>
    if b < 128 then some (b, rest)
    else
      match deserNat rest with
      | none => none
      | some (n, r) => some ((b - 128) + 128 * n, r)

theorem deserNat_serNat (n : Nat) (r : List Nat) :
    deserNat (serNat n ++ r) = some (n, r) := by
  induction n using Nat.strong_induction_on with
  | _ n ih =>
    rw [serNat_eq]
    by_cases h : n < 128
    · simp [h, deserNat]
    · have hdiv : n / 128 < n :=
        Nat.div_lt_self (Nat.lt_of_lt_of_le (by norm_num) (Nat.le_of_not_lt h)) (by norm_num)
      simp only [h, if_false, List.cons_append, deserNat]
      have hb : ¬ (n % 128 + 128 < 128) := by omega
      rw [if_neg hb, ih (n / 128) hdiv]
      have h2 : n % 128 + 128 * (n / 128) = n := by omega
      simp [h2]

/-- Little-endian byte encoding with a fixed width, modelling
`u64::to_le_bytes` (the demo writer stores the compressed chunk size
this way). -/
def natToLeBytes (n : Nat) : Nat → List Nat
  | 0 => []
  | k + 1 => n % 256 :: natToLeBytes (n / 256) k

/-- Little-endian byte decoding, modelling `u64::from_le_bytes`. -/
def leBytesToNat : List Nat → Nat
  | [] => 0
  | b :: r => b + 256 * leBytesToNat r

theorem length_natToLeBytes (n k : Nat) : (natToLeBytes n k).length = k := by
  induction k generalizing n with
  | zero => rfl
  | succ k ih => simp [natToLeBytes, ih]

theorem leBytesToNat_natToLeBytes (n k : Nat) :
    leBytesToNat (natToLeBytes n k) = n % 256 ^ k := by
  induction k generalizing n with
  | zero => simp [natToLeBytes, leBytesToNat, Nat.mod_one]
  | succ k ih =>
    simp only [natToLeBytes, leBytesToNat, ih]
    rw [Nat.pow_succ, Nat.mul_comm (256 ^ k) 256, Nat.mod_mul]

/-- The external collaborators of the demo chunk pipeline, specified at
their interface boundary: bincode's payload serializer/deserializer
(`deser` also reports the consumed length, like `decode_from_slice`),
the zstd compressor (`comp`/`decomp`) and the `bin_patch` binary differ
(`diff`/`patch`).  Their contracts are hypotheses of the theorems that
need them. -/
structure Codec (α : Type) where
  ser : α → List Nat
  deser : List Nat → Option (α × Nat)
  comp : List Nat → List Nat
  decomp : List Nat → List Nat
  diff : List Nat → List Nat → List Nat
  patch : List Nat → List Nat → List Nat

/-- The record loop of `write_chunk` (client-demo lib.rs:342-370): each
record's payload is serialized; the first record is compressed as an
absolute value, every later record is diffed against the previous
record's serialization (`last_data`); a `ChunkHeader { monotonic_tick,
size }` precedes each record's bytes. -/
def writeRecords (c : Codec α) : Option (List Nat) → List (Nat × α) → List Nat
  | _, [] => []
  | lastData, (monotonicTick, a) :: rest =>
    let dataSerialized := c.ser a
    let data :=
      match lastData with
      | some l => c.diff l dataSerialized
      | none => c.comp dataSerialized
    serNat monotonicTick ++ (serNat data.length ++ (data ++
      writeRecords c (some dataSerialized) rest))

/-- `write_chunk` (client-demo lib.rs:327-380): chunk count, then the
records, the whole body zstd-compressed and prefixed with its
compressed size as a little-endian `u64`. -/
def writeChunk (c : Codec α) (chunk : List (Nat × α)) : List Nat :=
  let body := serNat chunk.length ++ writeRecords c none chunk
  let compBody := c.comp body
  natToLeBytes compBody.length 8 ++ compBody

/-- `BTreeMap::insert` on an association list sorted by strictly
increasing keys (models `res.insert(header.monotonic_tick, data)` in
`read_chunks`). -/
def insertSorted (m : List (Nat × α)) (k : Nat) (v : α) : List (Nat × α) :=
  match m with
  | [] => [(k, v)]
  | (k', v') :: rest =>
    if k < k' then (k, v) :: (k', v') :: rest
    else if k = k' then (k, v) :: rest
    else (k', v') :: insertSorted rest k v

/-- The record loop of `read_chunks` (client-demo lib.rs:729-754): read
a `ChunkHeader`; when its size is positive, slice that many bytes,
patch against the previous decoded payload (or decompress when there is
none), deserialize and insert; a zero size record is skipped and leaves
`last_data` untouched.  (Rust's slicing would panic when fewer than
`size` bytes remain; `List.take` never does — on every input reached by
the theorems below the slice is exact.) -/
def readRecords (c : Codec α) :
    Option (List Nat) → List Nat → Nat → List (Nat × α) → Option (List (Nat × α))
  | _, _, 0, acc => some acc
  | lastData, file, n + 1, acc =>
    match deserNat file with
    | none => none
    | some (monotonicTick, file) =>
      match deserNat file with
      | none => none
      | some (size, file) =>
        if 0 < size then
          let dataSlice := file.take size
          let res :=
            match lastData with
            | some l => c.patch l dataSlice
            | none => c.decomp dataSlice
          match c.deser res with
          | none => none
          | some (data, _) =>
            readRecords c (some res) (file.drop size) n (insertSorted acc monotonicTick data)
        else
          readRecords c lastData file n acc

/-- `DemoViewerInner::read_chunks` (client-demo lib.rs:684-757) on the
bytes starting at the chunk: read the compressed size (little-endian
`u64`), decompress that many following bytes, read the record count and
then the records. -/
def readChunks (c : Codec α) (file : List Nat) : Option (List (Nat × α)) :=
  if file.length < 8 then none
  else
    let chunksSize := leBytesToNat (file.take 8)
    let data := c.decomp ((file.drop 8).take chunksSize)
    match deserNat data with
    | none => none
    | some (len, recs) => readRecords c none recs len []

/-- `read_chunks` as called by the viewer: the chunk region is sliced
at the chunk's byte offset (`&demo.demo_chunks[offset..]`). -/
def readChunksAt (c : Codec α) (demoChunks : List Nat) (offset : Nat) :
    Option (List (Nat × α)) :=
  readChunks c (demoChunks.drop offset)

/-- Keys of a `BTreeMap` iterate in strictly increasing order. -/
def KeysSorted (l : List (Nat × α)) : Prop :=
  l.Pairwise (fun p q => p.1 < q.1)

theorem insertSorted_append (acc : List (Nat × α)) (k : Nat) (v : α)
    (h : ∀ p ∈ acc, p.1 < k) :
    insertSorted acc k v = acc ++ [(k, v)] := by
  induction acc with
  | nil => rfl
  | cons hd tl ih =>
    obtain ⟨k', v'⟩ := hd
    have hk' : k' < k := h (k', v') (by simp)
    simp only [insertSorted]
    rw [if_neg (by omega), if_neg (by omega)]
    simp [ih (fun p hp => h p (by simp [hp]))]

theorem readRecords_writeRecords (c : Codec α)
    (hdeser : ∀ a, c.deser (c.ser a) = some (a, (c.ser a).length))
    (hdecomp : ∀ x, c.decomp (c.comp x) = x)
    (hpatch : ∀ b t, c.patch b (c.diff b t) = t)
    (hdiffne : ∀ b t, c.diff b t ≠ [])
    (hcompne : ∀ x, c.comp x ≠ []) :
    ∀ (chunk : List (Nat × α)) (lastData : Option (List Nat)) (acc : List (Nat × α)),
      KeysSorted chunk →
      (∀ p ∈ acc, ∀ q ∈ chunk, p.1 < q.1) →
      readRecords c lastData (writeRecords c lastData chunk) chunk.length acc
        = some (acc ++ chunk) := by
  intro chunk
  induction chunk with
  | nil =>
    intro lastData acc _ _
    simp [readRecords, writeRecords]
  | cons hd rest ih =>
    obtain ⟨t, a⟩ := hd
    intro lastData acc hsorted hacc
    have hkey : ∀ p ∈ acc, p.1 < t := fun p hp => hacc p hp (t, a) (by simp)
    have hsorted' : KeysSorted rest := (List.pairwise_cons.mp hsorted).2
    have hhd : ∀ q ∈ rest, t < q.1 :=
      fun q hq => (List.pairwise_cons.mp hsorted).1 q hq
    have hacc' : ∀ p ∈ acc ++ [(t, a)], ∀ q ∈ rest, p.1 < q.1 := by
      intro p hp q hq
      rcases List.mem_append.mp hp with hp | hp
      · exact Nat.lt_trans (hkey p hp) (hhd q hq)
      · simp at hp
        subst hp
        exact hhd q hq
    cases lastData with
    | none =>
      have hne : c.comp (c.ser a) ≠ [] := hcompne _
      have hpos : 0 < (c.comp (c.ser a)).length := List.length_pos.mpr hne
      simp only [writeRecords, readRecords, List.length_cons]
      simp only [deserNat_serNat]
      simp only [if_pos hpos, List.take_left, List.drop_left, hdecomp, hdeser]
      rw [insertSorted_append acc t a hkey]
      rw [ih (some (c.ser a)) (acc ++ [(t, a)]) hsorted' hacc']
      simp
    | some l =>
      have hne : c.diff l (c.ser a) ≠ [] := hdiffne _ _
      have hpos : 0 < (c.diff l (c.ser a)).length := List.length_pos.mpr hne
      simp only [writeRecords, readRecords, List.length_cons]
      simp only [deserNat_serNat]
      simp only [if_pos hpos, List.take_left, List.drop_left, hpatch, hdeser]
      rw [insertSorted_append acc t a hkey]
      rw [ih (some (c.ser a)) (acc ++ [(t, a)]) hsorted' hacc']
      simp

/-- A concrete lawful instantiation of the external codec interface,
used to evaluate the chunk pipeline on concrete inputs: payloads are
byte lists serialized behind a length prefix, "compression" prepends a
marker byte, and a "diff" ignores its base and stores the whole target
behind a marker byte. -/
def listCodec : Codec (List Nat) where
  ser a := serNat a.length ++ a
  deser l :=
    match deserNat l with
    | none => none
    | some (n, r) => if n ≤ r.length then some (r.take n, (serNat n).length + n) else none
  comp x := 0 :: x
  decomp x := x.drop 1
  diff _ t := 1 :: t
  patch _ d := d.drop 1

theorem listCodec_deser_ser (a : List Nat) :
    listCodec.deser (listCodec.ser a) = some (a, (listCodec.ser a).length) := by
  simp [listCodec, deserNat_serNat]

theorem listCodec_decomp_comp (x : List Nat) : listCodec.decomp (listCodec.comp x) = x := by
  simp [listCodec]

theorem listCodec_patch_diff (b t : List Nat) : listCodec.patch b (listCodec.diff b t) = t := by
  simp [listCodec]

theorem listCodec_diff_ne (b t : List Nat) : listCodec.diff b t ≠ [] := by
  simp [listCodec]

theorem listCodec_comp_ne (x : List Nat) : listCodec.comp x ≠ [] := by
  simp [listCodec]

/-- C1 (amended): for every non-empty ordered map of (tick, payload)
records, decoding a chunk produced by the demo writer's chunk
serializer (`read_chunks` applied to the output of `write_chunk` at its
byte offset inside the chunk region) yields exactly the original map,
where the first record is stored compressed as an absolute value and
every later record as a byte-level patch against the immediately
preceding record's decoded payload — for any serializer/compressor/
diff-patch collaborators satisfying their contracts
(`patch(base, diff(base, target)) == target`,
`decompress(compress(x)) == x`, deserialize inverts serialize),
PROVIDED the compressor and the differ never produce empty byte
strings: `read_chunks` skips a record whose stored size is zero. -/
theorem demo_chunk_roundtrip (c : Codec α)
    (hdeser : ∀ a, c.deser (c.ser a) = some (a, (c.ser a).length))
    (hdecomp : ∀ x, c.decomp (c.comp x) = x)
    (hpatch : ∀ b t, c.patch b (c.diff b t) = t)
    (hdiffne : ∀ b t, c.diff b t ≠ [])
    (hcompne : ∀ x, c.comp x ≠ [])
    (chunk : List (Nat × α)) (pre post : List Nat)
    (hne : chunk ≠ [])
    (hsorted : KeysSorted chunk)
    (hsize : (c.comp (serNat chunk.length ++ writeRecords c none chunk)).length < 2 ^ 64) :
    readChunksAt c (pre ++ (writeChunk c chunk ++ post)) pre.length = some chunk := by
  unfold readChunksAt
  rw [List.drop_left]
  unfold readChunks writeChunk
  have hlen8 : (natToLeBytes (c.comp (serNat chunk.length ++ writeRecords c none chunk)).length
      8).length = 8 := length_natToLeBytes _ _
  rw [List.append_assoc]
  have hnotlt : ¬ ((natToLeBytes
      (c.comp (serNat chunk.length ++ writeRecords c none chunk)).length 8 ++
      (c.comp (serNat chunk.length ++ writeRecords c none chunk) ++ post)).length < 8) := by
    rw [List.length_append, hlen8]
    omega
  rw [if_neg hnotlt]
  rw [List.take_left' hlen8, List.drop_left' hlen8]
  rw [leBytesToNat_natToLeBytes]
  have h2p : (256 : Nat) ^ 8 = 2 ^ 64 := by norm_num
  rw [h2p, Nat.mod_eq_of_lt hsize]
  simp only [List.take_left, hdecomp, deserNat_serNat]
  have := readRecords_writeRecords c hdeser hdecomp hpatch hdiffne hcompne chunk none []
    hsorted (by simp)
  simpa using this

/-- Witness for C1: the round-trip evaluated on a concrete chunk at a
concrete byte offset with the concrete lawful codec. -/
theorem demo_chunk_roundtrip_witness :
    readChunksAt listCodec ([2] ++ (writeChunk listCodec [(3, [7]), (4, [9])] ++ [5])) 1
      = some [(3, [7]), (4, [9])] :=
  demo_chunk_roundtrip listCodec listCodec_deser_ser listCodec_decomp_comp
    listCodec_patch_diff listCodec_diff_ne listCodec_comp_ne
    [(3, [7]), (4, [9])] [2] [5] (by decide)
    (by constructor <;> simp)
    (by decide)

/-- A lawful diff/patch pair whose diff of two equal byte strings is
empty (`patch(base, diff(base, target)) == target` still holds for all
inputs).  With it, the writer stores a size-zero record for a repeated
payload and the reader drops that record. -/
def cexCodec : Codec (List Nat) where
  ser a := serNat a.length ++ a
  deser l :=
    match deserNat l with
    | none => none
    | some (n, r) => if n ≤ r.length then some (r.take n, (serNat n).length + n) else none
  comp x := 0 :: x
  decomp x := x.drop 1
  diff b t := if t = b then [] else 1 :: t
  patch b d := if d = [] then b else d.drop 1

theorem cexCodec_patch_diff (b t : List Nat) : cexCodec.patch b (cexCodec.diff b t) = t := by
  by_cases h : t = b <;> simp [cexCodec, h]

/-- C1 counterexample: with the lawful pair `cexCodec` (which satisfies
`patch(base, diff(base, target)) == target` for all inputs, see
`cexCodec_patch_diff`), the chunk `{0 ↦ [5], 1 ↦ [5]}` decodes to
`{0 ↦ [5]}` — the repeated payload's diff is empty, so the reader skips
the record — refuting the claim that the stated round-trip law alone
guarantees `read_chunks ∘ write_chunk = id`. -/
theorem demo_chunk_roundtrip_cex :
    readChunksAt cexCodec (writeChunk cexCodec [(0, [5]), (1, [5])] ++ []) 0
        = some [(0, [5])] ∧
    readChunksAt cexCodec (writeChunk cexCodec [(0, [5]), (1, [5])] ++ []) 0
        ≠ some [(0, [5]), (1, [5])] := by
  constructor <;> decide

/-- `DATA_PER_CHUNK_TO_WRITE` (client-demo lib.rs:166). -/
def DATA_PER_CHUNK_TO_WRITE : Nat := 30 * 50

/-- `SECONDS_UNTIL_WRITE` (client-demo lib.rs:169). -/
def SECONDS_UNTIL_WRITE : Nat := 3

/-- `BTreeMap::first_key_value` key. -/
def firstKey (data : List (Nat × α)) : Option Nat := data.head?.map (·.1)

/-- `BTreeMap::last_key_value` key. -/
def lastKey (data : List (Nat × α)) : Option Nat := data.getLast?.map (·.1)

def isOkE : Except ε σ → Bool
  | .ok _ => true
  | .error _ => false

/-- The writer thread's per-chunk bookkeeping in `writer_thread_run`
(client-demo lib.rs:317-325): the tail index under construction, the
byte offset into the chunk region (`size - size_before_chunks`), and
the monotonic span trackers. -/
structure WriterState where
  index : List (Nat × Nat)
  sizeFromChunks : Nat
  firstMonotonic : Option Nat
  lastMonotonic : Option Nat
deriving DecidableEq

def initWriter : WriterState := ⟨[], 0, none, none⟩

/-- `serialize_and_write_chunk` (client-demo lib.rs:382-430): record
the chunk's first tick in the tail index at the current byte offset,
write the chunk, then run the `ensure` monotonicity checks (in source
order: the index insertion and the write happen before the checks; a
failed check aborts the writer thread, so the partially mutated state
is never observed). -/
def serializeAndWriteChunk (c : Codec α) (st : WriterState) (chunk : List (Nat × α)) :
    Except String WriterState :=
  match firstKey chunk, lastKey chunk with
  | some firstTick, some lastTick =>
    let index := insertSorted st.index firstTick st.sizeFromChunks
    let size := st.sizeFromChunks + (writeChunk c chunk).length
    let monotonicFirstTick := st.firstMonotonic.getD firstTick
    if monotonicFirstTick ≤ firstTick then
      if st.lastMonotonic.getD 0 ≤ lastTick then
        if monotonicFirstTick ≤ lastTick then
          .ok ⟨index, size, some monotonicFirstTick, some lastTick⟩
        else .error "somehow the first monotonic tick was bigger than the current last one."
      else .error "somehow the current last monotonic tick was smaller than the last one recorded (so not monotonic)."
    else .error "somehow the first recorded monotonic tick was bigger than the current first tick (so not monotonic)."
  | _, _ => .error "empty chunks are not allowed."

/-- `get_chunks_th` inside `try_write_chunks` (client-demo
lib.rs:530-540): the key at index `DATA_PER_CHUNK_TO_WRITE`, looked up
from the front or from the back depending on the count.  (The `usize`
subtraction is only reached under the caller's `len > 1500` guard;
`Nat` subtraction agrees there.) -/
def getChunksTh (data : List (Nat × α)) : Option Nat :=
  let count := data.length
  if 2 * DATA_PER_CHUNK_TO_WRITE ≤ count then
    (data.map (·.1))[DATA_PER_CHUNK_TO_WRITE]?
  else
    (data.map (·.1)).reverse[count - 1 - DATA_PER_CHUNK_TO_WRITE]?

/-- `DemoRecorder::try_write_chunks` (client-demo lib.rs:524-563):
flush when more than `DATA_PER_CHUNK_TO_WRITE` entries are buffered and
the span from the split key to the newest entry exceeds
`ticks_per_second * SECONDS_UNTIL_WRITE`; `split_off` keeps the entries
at or above the split key and sends the older part to the writer
thread.  Returns the retained buffer and the flushed chunk, if any. -/
def tryWriteChunks (tps : Nat) (data : List (Nat × α)) :
    List (Nat × α) × Option (List (Nat × α)) :=
  if decide (DATA_PER_CHUNK_TO_WRITE < data.length) &&
      (match getChunksTh data, lastKey data with
       | some first, some last => decide (tps * SECONDS_UNTIL_WRITE < last - first)
       | _, _ => false) then
    match getChunksTh data with
    | some key =>
      (data.dropWhile (fun p => p.1 < key), some (data.takeWhile (fun p => p.1 < key)))
    | none => (data, none)
  else (data, none)

/-- `DemoRecorder::can_add_chunk` (client-demo lib.rs:565-576). -/
def canAddChunk (tps : Nat) (monotonicTick : Nat) (data : List (Nat × α)) : Bool :=
  data.isEmpty ||
    (match lastKey data with
     | some key =>
       decide (key ≤ monotonicTick) || decide (key - monotonicTick ≤ tps * SECONDS_UNTIL_WRITE)
     | none => false)

/-- `DemoRecorder::add_snapshot` (client-demo lib.rs:578-593): try to
flush, then store the snapshot under its tick (overwriting an existing
entry) only when `can_add_chunk` accepts the tick.  Returns the new
buffer and the flushed chunk, if any. -/
def addSnapshot (tps : Nat) (snapshots : List (Nat × List Nat)) (monotonicTick : Nat)
    (snapshot : List Nat) : List (Nat × List Nat) × Option (List (Nat × List Nat)) :=
  let res := tryWriteChunks tps snapshots
  if canAddChunk tps monotonicTick res.1 then
    (insertSorted res.1 monotonicTick snapshot, res.2)
  else res

/-- `BTreeMap::entry(..).or_default()` followed by `push` on the entry,
as `DemoRecorder::add_event` uses it. -/
def insertAppendSorted (m : List (Nat × List β)) (k : Nat) (v : β) : List (Nat × List β) :=
  match m with
  | [] => [(k, [v])]
  | (k', v') :: rest =>
    if k < k' then (k, [v]) :: (k', v') :: rest
    else if k = k' then (k', v' ++ [v]) :: rest
    else (k', v') :: insertAppendSorted rest k v

/-- `DemoRecorder::add_event` (client-demo lib.rs:595-610). -/
def addEvent (tps : Nat) (events : List (Nat × List Nat)) (monotonicTick : Nat)
    (event : Nat) : List (Nat × List Nat) × Option (List (Nat × List Nat)) :=
  let res := tryWriteChunks tps events
  if canAddChunk tps monotonicTick res.1 then
    (insertAppendSorted res.1 monotonicTick event, res.2)
  else res

/-- `Iterator::chunks(k)` grouping (structural via a fuel bound). -/
def chunksOfGo (k : Nat) : Nat → List β → List (List β)
  | _, [] => []
  | 0, l => [l]
  | fuel + 1, l => l.take k :: chunksOfGo k fuel (l.drop k)

def chunksOf (k : Nat) (l : List β) : List (List β) := chunksOfGo k l.length l

/-- `DemoRecorder::drop` (client-demo lib.rs:613-641): any remaining
entries are flushed unconditionally, grouped into chunks of
`DATA_PER_CHUNK_TO_WRITE`, skipping empty groups. -/
def recorderDrop (data : List (Nat × α)) : List (List (Nat × α)) :=
  if data.isEmpty then []
  else (chunksOf DATA_PER_CHUNK_TO_WRITE data).filter (fun ch => !ch.isEmpty)

/-- The final `DemoHeader.len` written by `writer_thread_run`
(client-demo lib.rs:496-512), as (seconds, nanoseconds): the monotonic
tick span divided by the tick rate, the remainder scaled by the
nanoseconds per tick. -/
def finalHeaderLen (tps first last : Nat) : Nat × Nat :=
  ((last - first) / tps, ((last - first) % tps) * (1000000000 / tps))

/-- The writer thread's receive loop (client-demo lib.rs:432-465)
restricted to snapshot chunks: fold `serialize_and_write_chunk` over
the received chunks. -/
def writerRun (c : Codec α) (msgs : List (List (Nat × α))) : Except String WriterState :=
  msgs.foldlM (fun st chunk => serializeAndWriteChunk c st chunk) initWriter

/-- C7 counterexample: writing a chunk covering ticks [10,20] and then
a chunk covering ticks [15,25] is NOT rejected — both writes succeed —
because the `ensure` checks in `serialize_and_write_chunk` only reject
a first tick that precedes the first-ever first tick or a last tick
that precedes the previously recorded last tick, and 10 ≤ 15, 20 ≤ 25. -/
theorem serialize_overlapping_chunks_accepted :
    isOkE ((serializeAndWriteChunk listCodec initWriter [(10, [0]), (20, [0])]).bind
      (fun st => serializeAndWriteChunk listCodec st [(15, [0]), (25, [0])])) = true := by
  decide

/-- C7 (amended): passing an empty chunk always fails; writing [10,20]
then [21,30] succeeds and produces a tail index with exactly the two
entries 10 ↦ offset_a (= 0) and 21 ↦ offset_b (= the byte length of
the first chunk); and writing [10,20] then [15,25] is ACCEPTED (not
rejected): the writer's ensure checks compare the new first tick
against the first-ever first tick and the new last tick against the
previously recorded last tick, so an overlapping but
last-tick-non-decreasing chunk passes. -/
theorem serialize_and_write_chunk_behavior :
    (∀ (c : Codec (List Nat)) (st : WriterState),
      serializeAndWriteChunk c st ([] : List (Nat × List Nat))
        = .error "empty chunks are not allowed.") ∧
    ((serializeAndWriteChunk listCodec initWriter [(10, [0]), (20, [0])]).bind
        (fun st => serializeAndWriteChunk listCodec st [(21, [0]), (30, [0])])
      = .ok ⟨[(10, 0), (21, (writeChunk listCodec [(10, [0]), (20, [0])]).length)],
          (writeChunk listCodec [(10, [0]), (20, [0])]).length
            + (writeChunk listCodec [(21, [0]), (30, [0])]).length,
          some 10, some 30⟩) ∧
    isOkE ((serializeAndWriteChunk listCodec initWriter [(10, [0]), (20, [0])]).bind
      (fun st => serializeAndWriteChunk listCodec st [(15, [0]), (25, [0])])) = true := by
  refine ⟨fun c st => rfl, by rfl, by decide⟩

theorem tryWriteChunks_small (tps : Nat) (data : List (Nat × α))
    (h : data.length ≤ DATA_PER_CHUNK_TO_WRITE) :
    tryWriteChunks tps data = (data, none) := by
  unfold tryWriteChunks
  have hc : decide (DATA_PER_CHUNK_TO_WRITE < data.length) = false := by
    simp only [decide_eq_false_iff_not]
    omega
  rw [hc]
  simp

theorem lastKey_mem : ∀ (data : List (Nat × α)) (k : Nat), lastKey data = some k →
    ∃ p ∈ data, p.1 = k := by
  intro data
  induction data with
  | nil => intro k h; simp [lastKey] at h
  | cons x xs ih =>
    intro k h
    cases xs with
    | nil =>
      simp [lastKey] at h
      exact ⟨x, by simp, by omega⟩
    | cons y ys =>
      have h2 : lastKey (y :: ys) = some k := by
        simpa [lastKey, List.getLast?_cons_cons] using h
      obtain ⟨p, hp, hpk⟩ := ih k h2
      exact ⟨p, by simp [hp], hpk⟩

theorem lastKey_cons (x : Nat × α) (xs : List (Nat × α)) :
    ∃ k, lastKey (x :: xs) = some k := by
  induction xs generalizing x with
  | nil => exact ⟨x.1, rfl⟩
  | cons y ys ih =>
    obtain ⟨k, hk⟩ := ih y
    exact ⟨k, by simpa [lastKey, List.getLast?_cons_cons] using hk⟩

theorem canAddChunk_of_keys_lt (tps t : Nat) (buf : List (Nat × α))
    (hkeys : ∀ p ∈ buf, p.1 < t) :
    canAddChunk tps t buf = true := by
  cases buf with
  | nil => rfl
  | cons x xs =>
    obtain ⟨key, hb⟩ := lastKey_cons x xs
    obtain ⟨p, hp, hpk⟩ := lastKey_mem _ key hb
    have hle : key ≤ t := by
      have := hkeys p hp
      omega
    unfold canAddChunk
    rw [hb]
    simp [hle]

/-- `add_snapshot` on a small buffer whose entries all precede the new
tick: no flush, and the entry is appended. -/
theorem addSnapshot_append (tps t : Nat) (s : List Nat) (buf : List (Nat × List Nat))
    (hlen : buf.length ≤ DATA_PER_CHUNK_TO_WRITE)
    (hkeys : ∀ p ∈ buf, p.1 < t) :
    addSnapshot tps buf t s = (buf ++ [(t, s)], none) := by
  unfold addSnapshot
  rw [tryWriteChunks_small tps buf hlen]
  have hcan := canAddChunk_of_keys_lt tps t buf hkeys
  simp [hcan, insertSorted_append buf t s hkeys]

/-- The C8 recording scenario driver: `recorder.add_snapshot(t, payload)`
for each tick `t` in `0..n`, collecting every chunk flushed to the
writer channel. -/
def recordRange (tps : Nat) : Nat → List (Nat × List Nat) × List (List (Nat × List Nat))
  | 0 => ([], [])
  | n + 1 =>
    let acc := recordRange tps n
    let res := addSnapshot tps acc.1 n [n]
    (res.1, acc.2 ++ res.2.toList)

theorem recordRange_eq (tps : Nat) :
    ∀ n, n ≤ DATA_PER_CHUNK_TO_WRITE →
      recordRange tps n = ((List.range n).map (fun t => (t, [t])), []) := by
  intro n
  induction n with
  | zero => intro _; rfl
  | succ n ih =>
    intro h
    have hrec := ih (by omega)
    simp only [recordRange, hrec]
    rw [addSnapshot_append tps n [n] _ (by simp; omega)
      (by
        intro p hp
        simp at hp
        obtain ⟨a, ha, rfl⟩ := hp
        simpa using ha)]
    simp [List.range_succ]

theorem chunksOfGo_nil (k : Nat) : ∀ fuel, chunksOfGo (β := β) k fuel [] = [] := by
  intro fuel
  cases fuel <;> rfl

theorem chunksOf_single (k : Nat) (l : List β) (hne : l ≠ []) (hlen : l.length ≤ k) :
    chunksOf k l = [l] := by
  unfold chunksOf
  cases l with
  | nil => cases hne rfl
  | cons x xs =>
    show chunksOfGo k (xs.length + 1) (x :: xs) = [x :: xs]
    simp only [chunksOfGo]
    rw [List.take_of_length_le (by simpa using hlen),
      List.drop_eq_nil_of_le (by simpa using hlen), chunksOfGo_nil]

theorem recorderDrop_single (data : List (Nat × α)) (hne : data ≠ [])
    (hlen : data.length ≤ DATA_PER_CHUNK_TO_WRITE) :
    recorderDrop data = [data] := by
  unfold recorderDrop
  rw [if_neg (by simpa using hne)]
  rw [chunksOf_single _ _ hne hlen]
  simp [hne]

theorem writerRun_singleton (c : Codec α) (chunk : List (Nat × α)) :
    writerRun c [chunk] = serializeAndWriteChunk c initWriter chunk := by
  unfold writerRun
  cases h : serializeAndWriteChunk c initWriter chunk <;>
    simp [List.foldlM, h]

theorem serializeAndWriteChunk_init (c : Codec α) (chunk : List (Nat × α)) (f l : Nat)
    (hf : firstKey chunk = some f) (hl : lastKey chunk = some l) (hfl : f ≤ l) :
    serializeAndWriteChunk c initWriter chunk
      = .ok ⟨[(f, 0)], (writeChunk c chunk).length, some f, some l⟩ := by
  unfold serializeAndWriteChunk
  rw [hf, hl]
  simp [initWriter, insertSorted, hfl]

/-- C8: recording snapshots for ticks 0..150 at 50 ticks/second with
the chunk-count threshold of 1500 entries and the 3-second flush time
threshold triggers no automatic flush (`try_write_chunks` sends nothing
while only 150 entries are buffered); on recorder teardown exactly one
chunk containing all 150 entries reaches the writer, which accepts it
(tail index `{0 ↦ 0}`, monotonic span 0..149); and the final header's
`len` is `Duration::new(2, 980000000)`, differing from
`Duration::new(3, 0)` by exactly one tick's nanoseconds. -/
theorem demo_recording_scenario :
    (recordRange 50 150).2 = [] ∧
    (recordRange 50 150).1 = (List.range 150).map (fun t => (t, [t])) ∧
    recorderDrop (recordRange 50 150).1 = [(List.range 150).map (fun t => (t, [t]))] ∧
    writerRun listCodec (recorderDrop (recordRange 50 150).1)
      = .ok ⟨[(0, 0)],
          (writeChunk listCodec ((List.range 150).map (fun t => (t, [t])))).length,
          some 0, some 149⟩ ∧
    finalHeaderLen 50 0 149 = (2, 980000000) ∧
    3 * 1000000000 - (2 * 1000000000 + 980000000) = 1000000000 / 50 := by
  have h1 := recordRange_eq 50 150 (by norm_num [DATA_PER_CHUNK_TO_WRITE])
  have hfirst : firstKey ((List.range 150).map (fun t => (t, [t]))) = some 0 := by
    rw [show (150 : Nat) = 149 + 1 from rfl, List.range_succ_eq_map]
    simp [firstKey]
  have hlast : lastKey ((List.range 150).map (fun t => (t, [t]))) = some 149 := by
    rw [show (150 : Nat) = 149 + 1 from rfl, List.range_succ]
    simp [lastKey]
  have hne : (List.range 150).map (fun t => (t, [t])) ≠ [] := by simp
  have hlen : ((List.range 150).map (fun t => (t, [t]))).length ≤ DATA_PER_CHUNK_TO_WRITE := by
    simp [DATA_PER_CHUNK_TO_WRITE]
  have hdrop := recorderDrop_single _ hne hlen
  refine ⟨by rw [h1], by rw [h1], by rw [h1, hdrop], ?_, by decide, by decide⟩
  rw [h1, hdrop, writerRun_singleton]
  exact serializeAndWriteChunk_init listCodec _ 0 149 hfirst hlast (by omega)

theorem lastKey_dropWhile (key : Nat) :
    ∀ (data : List (Nat × α)), key ∈ data.map (·.1) →
      lastKey (data.dropWhile (fun p => decide (p.1 < key))) = lastKey data := by
  intro data
  induction data with
  | nil => intro h; simp at h
  | cons x xs ih =>
    intro h
    by_cases hx : x.1 < key
    · have hxs : key ∈ xs.map (·.1) := by
        simp only [List.map_cons, List.mem_cons] at h
        rcases h with h | h
        · omega
        · exact h
      have hxs_ne : xs ≠ [] := by
        intro hnil
        rw [hnil] at hxs
        simp at hxs
      rw [List.dropWhile_cons, if_pos (by simpa using hx)]
      rw [ih hxs]
      cases xs with
      | nil => cases hxs_ne rfl
      | cons y ys => simp [lastKey, List.getLast?_cons_cons]
    · rw [List.dropWhile_cons]
      simp [hx]

theorem getChunksTh_mem (data : List (Nat × α)) (key : Nat)
    (h : getChunksTh data = some key) : key ∈ data.map (·.1) := by
  unfold getChunksTh at h
  by_cases hc : 2 * DATA_PER_CHUNK_TO_WRITE ≤ data.length
  · rw [if_pos hc] at h
    exact List.getElem?_mem h
  · rw [if_neg hc] at h
    exact List.mem_reverse.mp (List.getElem?_mem h)

theorem tryWriteChunks_lastKey (tps : Nat) (data : List (Nat × α)) :
    lastKey (tryWriteChunks tps data).1 = lastKey data := by
  unfold tryWriteChunks
  cases hcond : (decide (DATA_PER_CHUNK_TO_WRITE < data.length) &&
      (match getChunksTh data, lastKey data with
       | some first, some last => decide (tps * SECONDS_UNTIL_WRITE < last - first)
       | _, _ => false)) with
  | false => simp
  | true =>
    simp only [if_pos rfl]
    cases hth : getChunksTh data with
    | none => simp
    | some key =>
      simp only []
      exact lastKey_dropWhile key data (getChunksTh_mem data key hth)

/-- C10: for every call `add_snapshot(t, s)`, the entry for tick `t` is
stored (and otherwise the pending buffer — after the flush attempt that
every call performs first — is left unchanged) if and only if the
pending buffer is empty, or `t` is at least the newest buffered tick,
or the newest buffered tick minus `t` is at most
`ticks_per_second * SECONDS_UNTIL_WRITE`; the flush attempt never
changes the newest buffered tick, so the condition reads the same on
the original buffer. -/
theorem add_snapshot_gating (tps t : Nat) (s : List Nat) (data : List (Nat × List Nat)) :
    addSnapshot tps data t s
      = (if canAddChunk tps t (tryWriteChunks tps data).1
           then insertSorted (tryWriteChunks tps data).1 t s
           else (tryWriteChunks tps data).1,
         (tryWriteChunks tps data).2) ∧
    lastKey (tryWriteChunks tps data).1 = lastKey data ∧
    (canAddChunk tps t (tryWriteChunks tps data).1 = true ↔
      (data = [] ∨ ∃ newest, lastKey data = some newest ∧
        (newest ≤ t ∨ newest - t ≤ tps * SECONDS_UNTIL_WRITE))) := by
  refine ⟨?_, tryWriteChunks_lastKey tps data, ?_⟩
  · cases hc : canAddChunk tps t (tryWriteChunks tps data).1 <;>
      simp [addSnapshot, hc]
  · cases data with
    | nil =>
      constructor
      · intro _
        exact Or.inl rfl
      · intro _
        rfl
    | cons x xs =>
      obtain ⟨newest, hlk⟩ := lastKey_cons x xs
      have hbuf : lastKey (tryWriteChunks tps (x :: xs)).1 = some newest := by
        rw [tryWriteChunks_lastKey]
        exact hlk
      have hbuf_ne : (tryWriteChunks tps (x :: xs)).1 ≠ [] := by
        intro hnil
        rw [hnil] at hbuf
        simp [lastKey] at hbuf
      constructor
      · intro hcan
        refine Or.inr ⟨newest, hlk, ?_⟩
        unfold canAddChunk at hcan
        rw [hbuf] at hcan
        cases hemp : (tryWriteChunks tps (x :: xs)).1.isEmpty with
        | true => exact absurd (List.isEmpty_iff.mp hemp) hbuf_ne
        | false =>
          rw [hemp] at hcan
          simp only [Bool.false_or, Bool.or_eq_true, decide_eq_true_eq] at hcan
          exact hcan
      · intro hor
        rcases hor with hor | ⟨newest', hlk', hor⟩
        · cases hor
        · rw [hlk'] at hlk
          injection hlk with hnn
          subst hnn
          unfold canAddChunk
          rw [hbuf]
          simp only [Bool.or_eq_true, decide_eq_true_eq]
          exact Or.inr hor

/-- Witness for C10 at a concrete call: a single buffered entry at
tick 3 plus `add_snapshot(5, [1])` stores the new entry and flushes
nothing. -/
theorem add_snapshot_gating_witness :
    addSnapshot 50 [(3, [2])] 5 [1] = ([(3, [2]), (5, [1])], none) := by
  have h := (add_snapshot_gating 50 5 [1] [(3, [2])]).1
  rw [h]
  decide

end Demo

namespace SG

/-!
Shallow embedding of `src/game/shared-game/src/state.rs` at the level
of structure the claims need.  Entities, inputs and events are `Nat`
(their internal structure never matters to the claims); the opaque
deterministic physics step and the parts of `SnapshotManager` that are
not in the source tree are parameters or spec-modelled definitions,
marked below.
-/

/-- A character inside a stage's world: its current input
(`core.input`), its intra-tick ratio (`core.input_intra_tick_ratio`,
the `f64` is abstracted) and the remaining physical state. -/
structure Character where
  input : Nat
  intraTickRatio : Nat
  core : Nat
deriving DecidableEq

/-- A stage (isolated simulation sub-arena): its characters keyed by
entity id, plus whether its match state is `Running`/`Paused` (the only
part of `match_manager` the embedded paths read). -/
structure Stage where
  matchActive : Bool
  chars : List (Nat × Character)
deriving DecidableEq

/-- One copy of the `Game` struct: stages keyed by stage id and the
player → stage map (`Players`). -/
structure Game where
  stages : List (Nat × Stage)
  players : List (Nat × Nat)
deriving DecidableEq

/-- `GameState`'s claim-relevant fields: the authoritative copy
`game`, the prediction copy `pred_game`, and the central
`simulation_events` queue consumed by `events_for`. -/
structure GameState where
  game : Game
  predGame : Game
  simulationEvents : List (Nat × List Nat)
deriving DecidableEq

/-- The external deterministic physics/game-rules step and input-change
handler (`GameStage::tick` and `World::handle_character_input_change`,
out of scope per the spec, treated as an opaque deterministic step
function).  `stageTick` receives the `is_prediction` flag carried by
`SimulationPipeStage` and returns the advanced stage plus the world
events it produced. -/
structure Physics where
  stageTick : Bool → Stage → Stage × List Nat
  handleInputChange : Stage → Nat → Nat → Stage
  playerAndQueryTick : Game → Game

/-- Association-list lookup (`BTreeMap::get` / `Players::player`). -/
def lookup (m : List (Nat × β)) (k : Nat) : Option β :=
  (m.find? (fun p => p.1 = k)).map (·.2)

/-- In-place update of the entry at a key (the `get_mut` + mutate
pattern; the source `unwrap`s when the key is missing, which is never
reached on the embedded paths — a missing key leaves the map
unchanged here). -/
def updateAssoc (m : List (Nat × β)) (k : Nat) (f : β → β) : List (Nat × β) :=
  m.map (fun p => if p.1 = k then (p.1, f p.2) else p)

/-- `GameState::tick_impl` (state.rs:490-514): advance every stage of
the chosen copy by one tick; in the authoritative case the produced
world events are inserted into `simulation_events` (the
`SimulationEvents::insert_world_evs` body is not in the source tree;
modelled from the spec: "appends to an internal event queue"); in the
prediction case they are discarded (`let _ = stage.tick(..)`). -/
def tick_impl (ph : Physics) (isPrediction : Bool) (st : GameState) : GameState :=
  if !isPrediction then
    let results := st.game.stages.map (fun p => (p.1, ph.stageTick isPrediction p.2))
    { st with
      game := { st.game with stages := results.map (fun p => (p.1, p.2.1)) },
      simulationEvents := st.simulationEvents ++ results.map (fun p => (p.1, p.2.2)) }
  else
    let results := st.predGame.stages.map (fun p => (p.1, ph.stageTick isPrediction p.2))
    { st with
      predGame := { st.predGame with stages := results.map (fun p => (p.1, p.2.1)) } }

/-- `GameState::set_player_inp_impl` (state.rs:687-720): look the
player up in the (authoritative) player map, write the input and the
intra-tick ratio into their character in the chosen copy's stage, and
forward the consumable input diff to the world while the stage's match
is running or paused. -/
def set_player_inp_impl (ph : Physics) (st : GameState) (playerId : Nat) (inp : Nat)
    (diff : Nat) (intraTickRatio : Option Nat) (isPrediction : Bool) : GameState :=
  match lookup st.game.players playerId with
  | none => st
  | some stageId =>
    let upd := fun (stages : List (Nat × Stage)) =>
      updateAssoc stages stageId (fun s =>
        let s := { s with chars := updateAssoc s.chars playerId (fun ch =>
          { ch with input := inp, intraTickRatio := intraTickRatio.getD 0 }) }
        if s.matchActive then ph.handleInputChange s playerId diff else s)
    if !isPrediction then
      { st with game := { st.game with stages := upd st.game.stages } }
    else
      { st with predGame := { st.predGame with stages := upd st.predGame.stages } }

/-- `GameStateInterface::set_player_input` (state.rs:1703-1710). -/
def set_player_input (ph : Physics) (st : GameState) (playerId inp diff : Nat) : GameState :=
  set_player_inp_impl ph st playerId inp diff none false

/-- Modelled from the spec: `SnapshotManager::build_stages`
(snapshot.rs is not in the source tree) captures the authoritative
copy's stages as snapshot stages — a snapshot is an idempotent absolute
state of the world. -/
def build_stages (st : GameState) : List (Nat × Stage) :=
  st.game.stages

/-- Modelled from the spec: `SnapshotManager::convert_to_game_stages`
(snapshot.rs is not in the source tree) rebuilds stages from snapshot
stages with full-overwrite semantics. -/
def convert_to_game_stages (snapStages : List (Nat × Stage)) : List (Nat × Stage) :=
  snapStages

/-- `GameState::build_pred_from_stages` (state.rs:842-858): overwrite
the prediction copy's stages from the snapshot stages. -/
def build_pred_from_stages (st : GameState) (snapStages : List (Nat × Stage)) : GameState :=
  { st with predGame := { st.predGame with stages := convert_to_game_stages snapStages } }

/-- The claim-relevant content of a serialized `Snapshot`: its stages.
The bincode byte round-trip through `MtPoolCow<[u8]>` is kept at the
structure level here; the byte-level, fallible decode is modelled
separately for `build_from_snapshot` below. -/
structure Snapshot where
  stages : List (Nat × Stage)
deriving DecidableEq

/-- The snapshot of the authoritative copy that `pred_tick` takes
(state.rs:1760-1761) and that `snapshot_for` serializes. -/
def snapshot_take (st : GameState) : Snapshot :=
  ⟨build_stages st⟩

/-- `GameStateInterface::build_from_snapshot_for_pred`
(state.rs:1823-1832): decode the (well-formed, locally produced)
snapshot and rebuild only the prediction copy from its stages. -/
def build_from_snapshot_for_pred (st : GameState) (snap : Snapshot) : GameState :=
  build_pred_from_stages st snap.stages

/-- `CharacterPredictionInput` (inp, consumable diff, intra-tick
ratio; the `f64` ratio is abstracted). -/
structure CharacterPredictionInput where
  inp : Nat
  diff : Nat
  intraTickRatio : Nat
deriving DecidableEq

/-- The input-application loop of `pred_tick` (state.rs:1763-1773). -/
def applyPredInputs (ph : Physics) (st : GameState)
    (inps : List (Nat × CharacterPredictionInput)) : GameState :=
  inps.foldl
    (fun st p =>
      set_player_inp_impl ph st p.1 p.2.inp p.2.diff (some p.2.intraTickRatio) true)
    st

/-- `GameStateInterface::pred_tick` (state.rs:1756-1775): (a) take a
snapshot of the authoritative copy's stages, (b) rebuild the prediction
copy from it, (c) apply the given per-player prediction inputs to the
prediction copy, (d) advance the prediction copy by one tick. -/
def pred_tick (ph : Physics) (st : GameState)
    (inps : List (Nat × CharacterPredictionInput)) : GameState :=
  let stages := build_stages st
  let st := build_pred_from_stages st stages
  let st := applyPredInputs ph st inps
  tick_impl ph true st

/-- `GameStateInterface::tick` (state.rs:1749-1754): the authoritative
tick, followed by `player_tick` and `query_tick` (respawn/timeout and
database handling; they touch the `Game` copy and per-stage queues but
never the central `simulation_events` queue, so they are abstracted
into `Physics.playerAndQueryTick`). -/
def tick (ph : Physics) (st : GameState) : GameState :=
  let st := tick_impl ph false st
  { st with game := ph.playerAndQueryTick st.game }

/-- The outcome of a Rust call that may panic. -/
inductive RustOutcome (α : Type) where
  | panicked
  | ok (value : α)
deriving DecidableEq

/-- `GameStateInterface::build_from_snapshot` (state.rs:1781-1789):
`bincode::serde::decode_from_slice(snapshot, ..).unwrap()` followed by
`SnapshotManager::build_from_snapshot`, which returns the local player
set.  The bincode decoder is the external fallible collaborator
`decode`; the source's `.unwrap()` panics when it fails.  The snapshot
application (snapshot.rs, not in the source tree) is the parameter
`applySnap`. -/
def build_from_snapshot (decode : List Nat → Option Snapshot)
    (applySnap : Snapshot → GameState → GameState × List Nat)
    (st : GameState) (snapshotBytes : List Nat) : RustOutcome (GameState × List Nat) :=
  match decode snapshotBytes with
  | none => .panicked
  | some snap => .ok (applySnap snap st)

/-- C2 (code bug): `build_from_snapshot` `.unwrap()`s the bincode
decode of network-controlled snapshot bytes, so every byte sequence the
decoder rejects panics the simulation core instead of being skipped or
reported recoverably — contrast `build_from_snapshot_by_hotreload`
(state.rs:1795-1800), which handles the same decode failure with a
guarded `let Ok(..) = .. else return`. -/
theorem build_from_snapshot_panics_on_undecodable
    (decode : List Nat → Option Snapshot)
    (applySnap : Snapshot → GameState → GameState × List Nat)
    (st : GameState) (bytes : List Nat)
    (hfail : decode bytes = none) :
    build_from_snapshot decode applySnap st bytes = .panicked := by
  unfold build_from_snapshot
  rw [hfail]

/-- A concrete stand-in for the fallible bincode decoder: it rejects
the empty byte string (bincode cannot decode a `Snapshot` struct from
zero bytes). -/
def decodeModel (bytes : List Nat) : Option Snapshot :=
  if bytes.isEmpty then none else some ⟨[]⟩

def emptyGameState : GameState := ⟨⟨[], []⟩, ⟨[], []⟩, []⟩

/-- Witness for C2: the concrete decoder rejects the empty byte string
and the call panics. -/
theorem build_from_snapshot_panics_witness :
    build_from_snapshot decodeModel (fun _ st => (st, [])) emptyGameState [] = .panicked :=
  build_from_snapshot_panics_on_undecodable decodeModel (fun _ st => (st, []))
    emptyGameState [] rfl

theorem set_player_inp_impl_pred_game (ph : Physics) (st : GameState)
    (pid inp diff : Nat) (r : Option Nat) :
    (set_player_inp_impl ph st pid inp diff r true).game = st.game := by
  unfold set_player_inp_impl
  cases lookup st.game.players pid <;> rfl

theorem applyPredInputs_game (ph : Physics)
    (inps : List (Nat × CharacterPredictionInput)) :
    ∀ st : GameState, (applyPredInputs ph st inps).game = st.game := by
  induction inps with
  | nil => intro st; rfl
  | cons p rest ih =>
    intro st
    show (applyPredInputs ph
      (set_player_inp_impl ph st p.1 p.2.inp p.2.diff (some p.2.intraTickRatio) true)
      rest).game = st.game
    rw [ih _]
    exact set_player_inp_impl_pred_game ph st p.1 p.2.inp p.2.diff (some p.2.intraTickRatio)

/-- C5: `pred_tick(inputs)` equals the manual sync-then-input-then-
advance composition — rebuild the prediction copy from a freshly taken
authoritative-copy snapshot (`build_from_snapshot_for_pred` of
`snapshot_take`), then apply the per-player inputs to the prediction
copy, then advance the prediction copy by one tick — and it never
mutates the authoritative copy. -/
theorem pred_tick_sync_then_input (ph : Physics) (st : GameState)
    (inps : List (Nat × CharacterPredictionInput)) :
    pred_tick ph st inps
      = tick_impl ph true
          (applyPredInputs ph (build_from_snapshot_for_pred st (snapshot_take st)) inps) ∧
    (pred_tick ph st inps).game = st.game := by
  constructor
  · rfl
  · show (tick_impl ph true _).game = st.game
    have h1 : ∀ s : GameState, (tick_impl ph true s).game = s.game := fun _ => rfl
    rw [h1, applyPredInputs_game]
    rfl

theorem set_player_inp_impl_simEvents (ph : Physics) (st : GameState)
    (pid inp diff : Nat) (r : Option Nat) (isPrediction : Bool) :
    (set_player_inp_impl ph st pid inp diff r isPrediction).simulationEvents
      = st.simulationEvents := by
  unfold set_player_inp_impl
  cases lookup st.game.players pid
  · rfl
  · cases isPrediction <;> rfl

theorem applyPredInputs_simEvents (ph : Physics)
    (inps : List (Nat × CharacterPredictionInput)) :
    ∀ st : GameState, (applyPredInputs ph st inps).simulationEvents = st.simulationEvents := by
  induction inps with
  | nil => intro st; rfl
  | cons p rest ih =>
    intro st
    show (applyPredInputs ph
      (set_player_inp_impl ph st p.1 p.2.inp p.2.diff (some p.2.intraTickRatio) true)
      rest).simulationEvents = st.simulationEvents
    rw [ih _]
    exact set_player_inp_impl_simEvents ph st p.1 p.2.inp p.2.diff (some p.2.intraTickRatio) true

/-- C9: prediction ticks never emit events — `pred_tick` (and
`tick_impl` with `is_prediction = true` generally) leaves the central
simulation-event queue consumed by `events_for` unchanged, while the
authoritative `tick()` appends exactly the per-stage world events the
step function produces. -/
theorem pred_tick_no_events (ph : Physics) (st : GameState)
    (inps : List (Nat × CharacterPredictionInput)) :
    (pred_tick ph st inps).simulationEvents = st.simulationEvents ∧
    (tick_impl ph true st).simulationEvents = st.simulationEvents ∧
    (tick ph st).simulationEvents
      = st.simulationEvents
          ++ st.game.stages.map (fun p => (p.1, (ph.stageTick false p.2).2)) := by
  refine ⟨?_, rfl, ?_⟩
  · show (tick_impl ph true _).simulationEvents = st.simulationEvents
    have h1 : ∀ s : GameState, (tick_impl ph true s).simulationEvents = s.simulationEvents :=
      fun _ => rfl
    rw [h1, applyPredInputs_simEvents]
    rfl
  · show (tick_impl ph false st).simulationEvents = _
    simp [tick_impl, List.map_map, Function.comp]

end SG

namespace Client

/-!
Shallow embedding of the snapshot branch of `NetworkLogic::on_msg`
(`src/src/client/components/network_logic.rs:50-249`).  Durations are
nanoseconds as `Nat`; the prediction timer's `f64` smoothing arithmetic
is abstracted into environment functions (the claims never constrain
it); `ClientPlayerInputPerTick` (whose definition is not in the source
tree) is an ordered tick → per-player-inputs map, consistent with the
`front`/`pop_front`/`get`/`iter().rev()` operations the handler uses.
-/

/-- A per-tick input map entry: player id → input. -/
abbrev Inputs := List (Nat × Nat)

/-- `SnapshotStorageItem` (src/src/client/game.rs:116-119). -/
structure SnapshotStorageItem where
  snapshot : List Nat
  monotonic_tick : Nat
deriving DecidableEq

/-- The claim-relevant fields of the client during `on_msg`: the game
wrapper (authoritative + prediction state and the wrapper's
`predicted_game_monotonic_tick`) and the `GameData` fields the snapshot
branch touches.  `localPlayers`, `ackState` and `predTimer` stand for
the local-player map, the ack/ping bookkeeping of lines 69-86 and the
prediction-timer state. -/
structure ClientState where
  game : SG.GameState
  predictedTick : Nat
  handledSnapId : Option Nat
  snapStorage : List (Nat × SnapshotStorageItem)
  inputPerTick : List (Nat × Inputs)
  snapAcks : List Nat
  localPlayers : Nat
  ackState : Nat
  lastGameTick : Nat
  predTimer : Nat

/-- `ServerToClientMessage::Snapshot`'s claim-relevant payload
(src/game/shared-network messages; field names follow the `on_msg`
destructuring). -/
structure SnapMsg where
  overheadTime : Nat
  snapshot : List Nat
  gameMonotonicTickDiff : Nat
  snapIdDiffed : Nat
  diffId : Option Nat
  asDiff : Bool
  inputAck : List Nat

/-- The external collaborators of `on_msg`: the physics step behind the
game state, `bin_patch::patch` (fallible), the ack/ping processing of
lines 69-86, `GameData::handle_local_players_from_snapshot`, the game
wrapper's `build_from_snapshot` (`none` models the panic of C2's
unwrap), the per-player input application of the replay loop (lines
172-196, whose `try_overwrite` lives outside the source tree), the
tick rate, and the prediction-timer operations (`f64` smoothing
abstracted). -/
structure Env where
  ph : SG.Physics
  patch : List Nat → List Nat → Option (List Nat)
  processAcks : Nat → List Nat → Nat
  handleLocalPlayers : Nat → Nat
  build : SG.GameState → List Nat → Option SG.GameState
  applyInp : SG.GameState → Inputs → Option Inputs → SG.GameState
  tickSpeed : Nat
  predMaxSmooth : Nat → Nat → Nat
  snapTail : Nat → Nat → Nat → Nat → Nat → Nat → Nat

/-- Lines 88-101: resolve a possibly diff-encoded snapshot against the
snapshot storage: a plain snapshot passes through; a diff-encoded one
requires its base in the storage and a successful `bin_patch::patch`,
otherwise the message resolves to an error (and is dropped). -/
def resolveSnapshot (env : Env) (st : ClientState) (msg : SnapMsg) :
    Option (List Nat × Nat × Nat) :=
  match msg.diffId with
  | some diffId =>
    match SG.lookup st.snapStorage diffId with
    | none => none
    | some old =>
      match env.patch old.snapshot msg.snapshot with
      | none => none
      | some snap =>
        some (snap, msg.snapIdDiffed + diffId, msg.gameMonotonicTickDiff + old.monotonic_tick)
  | none => some (msg.snapshot, msg.snapIdDiffed, msg.gameMonotonicTickDiff)

/-- Lines 139-141: `while snap_storage.len() >= 50 { pop_first }`. -/
def trimStorage (storage : List (Nat × SnapshotStorageItem)) :
    List (Nat × SnapshotStorageItem) :=
  storage.drop (storage.length - 49)

/-- Line 176-179 fallback: the newest buffered input at or before the
tick (`iter().rev().find_map(|(&tick, inp)| (tick <= t).then_some(inp))`). -/
def nearestAtMost (ipt : List (Nat × Inputs)) (t : Nat) : Option Inputs :=
  (ipt.reverse.find? (fun p => decide (p.1 ≤ t))).map (·.2)

/-- Lines 174-180: the input used for a replayed tick — the buffered
input at the tick, or else the nearest earlier one. -/
def chooseInput (ipt : List (Nat × Inputs)) (t : Nat) : Option Inputs :=
  match SG.lookup ipt t with
  | some inp => some inp
  | none => nearestAtMost ipt t

/-- Lines 170-212, the replay loop of the authoritative-behind case:
for every `new_tick` in `[min_tick, max_tick)`, apply the buffered
input for `new_tick + 1` (when any input at or before it exists) and
advance the game by one authoritative `tick()`. -/
def replayLoop (env : Env) (ipt : List (Nat × Inputs)) (minTick maxTick : Nat)
    (g : SG.GameState) : SG.GameState :=
  (List.range' minTick (maxTick - minTick)).foldl
    (fun g newTick =>
      let g :=
        match chooseInput ipt (newTick + 1) with
        | some inp => env.applyInp g inp (SG.lookup ipt newTick)
        | none => g
      SG.tick env.ph g)
    g

/-- The snapshot branch of `NetworkLogic::on_msg` (network_logic.rs
lines 60-249).  Returns `none` when the embedded call chain panics
(the `build_from_snapshot` unwrap), else the updated client state:
acks/pings first (no early return can skip them), then diff
resolution (dropping unresolvable messages), then — gated on the
snapshot id being newer than the last handled one — rebuild of the
authoritative state, storage/ack bookkeeping, input-queue trimming and
the tick-difference cases (replay when the server is behind, timer
re-base when it is ahead), and finally the prediction-timer tail that
runs for every non-dropped message. -/
def on_msg_snapshot (env : Env) (ts : Nat) (msg : SnapMsg) (st : ClientState) :
    Option ClientState :=
  let st := { st with ackState := env.processAcks st.ackState msg.inputAck }
  match resolveSnapshot env st msg with
  | none => some st
  | some (snapshotBytes, snapId, gameMonotonicTick) =>
    let tickTime := 1000000000 / env.tickSpeed
    let prevTick := st.predictedTick
    let stale : Bool :=
      match st.handledSnapId with
      | some id => decide (snapId ≤ id)
      | none => false
    let gatedRes : Option (ClientState × Nat) :=
      if stale then some (st, prevTick)
      else
        match env.build st.game snapshotBytes with
        | none => none
        | some g =>
          let st := { st with game := g,
                              localPlayers := env.handleLocalPlayers st.localPlayers,
                              handledSnapId := some snapId }
          let st :=
            if msg.asDiff then
              { st with snapStorage :=
                  (Demo.insertSorted (trimStorage st.snapStorage) snapId
                    ⟨snapshotBytes, gameMonotonicTick⟩) }
            else st
          let st := { st with snapAcks := st.snapAcks ++ [snapId] }
          let st := { st with predictedTick := max gameMonotonicTick prevTick }
          let st := { st with inputPerTick :=
              (st.inputPerTick.dropWhile (fun p => decide (p.1 < gameMonotonicTick))) }
          if gameMonotonicTick < prevTick then
            let maxTick := prevTick
            let minTick := min prevTick (max (prevTick - env.tickSpeed * 3) gameMonotonicTick)
            some ({ st with game := replayLoop env st.inputPerTick minTick maxTick st.game },
              prevTick)
          else if prevTick < gameMonotonicTick then
            some ({ st with lastGameTick :=
                (ts - env.predMaxSmooth st.predTimer tickTime - msg.overheadTime) },
              gameMonotonicTick)
          else
            some (st, prevTick)
    match gatedRes with
    | none => none
    | some (st, prevTickVar) =>
      some { st with predTimer :=
        (env.snapTail st.predTimer st.lastGameTick prevTickVar gameMonotonicTick ts
          msg.overheadTime) }

end Client

namespace Client

/-- The ack bookkeeping of lines 69-86 does not touch the snapshot
storage, so diff resolution reads the same storage before and after
it. -/
theorem resolveSnapshot_ackState (env : Env) (st : ClientState) (msg : SnapMsg) (x : Nat) :
    resolveSnapshot env { st with ackState := x } msg = resolveSnapshot env st msg := rfl

/-- C3: an incoming diff-encoded snapshot whose diff base id is not in
the snapshot storage is dropped: the handler returns (no panic) having
only processed the input acks — the authoritative game state, the
handled-snapshot-id, and every other field are unchanged, and
`build_from_snapshot` is never applied (the equation holds for every
`env.build`). -/
theorem reconciliation_drop_on_missing_base (env : Env) (ts : Nat) (msg : SnapMsg)
    (st : ClientState) (d : Nat)
    (hdiff : msg.diffId = some d)
    (hmiss : SG.lookup st.snapStorage d = none) :
    on_msg_snapshot env ts msg st
      = some { st with ackState := env.processAcks st.ackState msg.inputAck } ∧
    ∀ st', on_msg_snapshot env ts msg st = some st' →
      st'.game = st.game ∧ st'.handledSnapId = st.handledSnapId ∧
      st'.predictedTick = st.predictedTick := by
  have hmain : on_msg_snapshot env ts msg st
      = some { st with ackState := env.processAcks st.ackState msg.inputAck } := by
    unfold on_msg_snapshot
    have hres : resolveSnapshot env
        { st with ackState := env.processAcks st.ackState msg.inputAck } msg = none := by
      unfold resolveSnapshot
      rw [hdiff]
      simp [hmiss]
    simp only [hres]
  refine ⟨hmain, ?_⟩
  intro st' h
  rw [hmain] at h
  injection h with h
  subst h
  exact ⟨rfl, rfl, rfl⟩

/-- A concrete opaque physics step for witnesses. -/
def exPhysics : SG.Physics := ⟨fun _ s => (s, []), fun s _ _ => s, id⟩

/-- A concrete environment for witnesses. -/
def exEnv : Env :=
  ⟨exPhysics, fun _ d => some d, fun a l => a + l.length, id, fun g _ => some g,
   fun g _ _ => g, 50, fun _ _ => 0, fun t _ _ _ _ _ => t⟩

def exState : ClientState := ⟨SG.emptyGameState, 10, some 7, [], [], [], 0, 0, 0, 0⟩

def exMsgMissingBase : SnapMsg := ⟨0, [1, 2], 3, 1, some 5, false, [4]⟩

/-- Witness for C3: a client holding no snapshot with id 5 receives a
diff-encoded snapshot referencing base id 5; the message is dropped
with only its input acks processed. -/
theorem reconciliation_drop_witness :
    on_msg_snapshot exEnv 0 exMsgMissingBase exState
      = some { exState with
          ackState := exEnv.processAcks exState.ackState exMsgMissingBase.inputAck } :=
  (reconciliation_drop_on_missing_base exEnv 0 exMsgMissingBase exState 5 rfl rfl).1

/-- C4: a snapshot message whose (diff-resolved) snapshot id is at most
the last handled id never reaches `build_from_snapshot`: the handler
only processes the input acks and folds the observed time difference
into the prediction timer — the authoritative game state, the
handled-snapshot-id and the predicted tick are unchanged, so the
authoritative state never rolls back past an already-applied id. -/
theorem snapshot_id_monotonicity (env : Env) (ts : Nat) (msg : SnapMsg) (st : ClientState)
    (snapshotBytes : List Nat) (snapId mono h : Nat)
    (hres : resolveSnapshot env st msg = some (snapshotBytes, snapId, mono))
    (hhandled : st.handledSnapId = some h)
    (hle : snapId ≤ h) :
    on_msg_snapshot env ts msg st
      = some { st with
          ackState := env.processAcks st.ackState msg.inputAck,
          predTimer := (env.snapTail st.predTimer st.lastGameTick st.predictedTick mono ts
            msg.overheadTime) } ∧
    ∀ st', on_msg_snapshot env ts msg st = some st' →
      st'.game = st.game ∧ st'.handledSnapId = st.handledSnapId ∧
      st'.predictedTick = st.predictedTick := by
  have hmain : on_msg_snapshot env ts msg st
      = some { st with
          ackState := env.processAcks st.ackState msg.inputAck,
          predTimer := (env.snapTail st.predTimer st.lastGameTick st.predictedTick mono ts
            msg.overheadTime) } := by
    unfold on_msg_snapshot
    have hres' : resolveSnapshot env
        { st with ackState := env.processAcks st.ackState msg.inputAck } msg
        = some (snapshotBytes, snapId, mono) := hres
    simp only [hres']
    simp only [hhandled]
    simp [hle]
  refine ⟨hmain, ?_⟩
  intro st' heq
  rw [hmain] at heq
  injection heq with heq
  subst heq
  exact ⟨rfl, rfl, rfl⟩

def exMsgStale : SnapMsg := ⟨0, [9], 2, 4, none, true, []⟩

/-- Witness for C4: the client has handled snapshot id 7 and receives
a plain snapshot with id 4 ≤ 7; the authoritative state is untouched. -/
theorem snapshot_id_monotonicity_witness :
    on_msg_snapshot exEnv 0 exMsgStale exState
      = some { exState with
          ackState := exEnv.processAcks exState.ackState exMsgStale.inputAck,
          predTimer := (exEnv.snapTail exState.predTimer exState.lastGameTick
            exState.predictedTick 2 0 exMsgStale.overheadTime) } :=
  (snapshot_id_monotonicity exEnv 0 exMsgStale exState [9] 4 2 7 rfl rfl (by omega)).1

end Client

namespace Client

theorem find?_reverse (p : β → Bool) : ∀ l : List β, l.reverse.find? p = (l.filter p).getLast? := by
  intro l
  induction l with
  | nil => rfl
  | cons x xs ih =>
    rw [List.reverse_cons, List.find?_append, ih]
    by_cases hx : p x = true
    · rw [List.filter_cons_of_pos hx]
      cases hf : xs.filter p with
      | nil => simp [List.find?, hx]
      | cons y ys =>
        obtain ⟨z, hz⟩ : ∃ z, (y :: ys).getLast? = some z := by
          cases hzz : (y :: ys).getLast? with
          | some z => exact ⟨z, rfl⟩
          | none => simp at hzz
        rw [hz, List.getLast?_cons_cons, hz]
        rfl
    · rw [List.filter_cons_of_neg (by simpa using hx)]
      have hfx : List.find? p [x] = none := by
        simp [List.find?, hx]
      rw [hfx]
      cases (xs.filter p).getLast? <;> rfl

theorem lookup_filter_getLast (t : Nat) :
    ∀ (ipt : List (Nat × Inputs)), Demo.KeysSorted ipt → ∀ v, SG.lookup ipt t = some v →
      (ipt.filter (fun p => decide (p.1 ≤ t))).getLast? = some (t, v) := by
  intro ipt
  induction ipt with
  | nil =>
    intro _ v h
    simp [SG.lookup] at h
  | cons x xs ih =>
    intro hsort v h
    have hsort' : Demo.KeysSorted xs := (List.pairwise_cons.mp hsort).2
    by_cases hx : x.1 = t
    · have hv : x.2 = v := by
        unfold SG.lookup at h
        simp [List.find?_cons, hx] at h
        exact h
      have hxs_nil : xs.filter (fun p => decide (p.1 ≤ t)) = [] := by
        apply List.filter_eq_nil_iff.mpr
        intro q hq
        have := (List.pairwise_cons.mp hsort).1 q hq
        simp
        omega
      rw [List.filter_cons_of_pos (by simp [hx]), hxs_nil]
      obtain ⟨x1, x2⟩ := x
      rw [show x1 = t from hx, show x2 = v from hv]
      rfl
    · have h' : SG.lookup xs t = some v := by
        unfold SG.lookup at h
        rw [List.find?_cons, decide_eq_false hx] at h
        exact h
      by_cases hxle : x.1 ≤ t
      · rw [List.filter_cons_of_pos (by simpa using hxle)]
        have hlast := ih hsort' v h'
        cases hfc : xs.filter (fun p => decide (p.1 ≤ t)) with
        | nil =>
          rw [hfc] at hlast
          simp at hlast
        | cons y ys =>
          rw [List.getLast?_cons_cons]
          rw [hfc] at hlast
          exact hlast
      · rw [List.filter_cons_of_neg (by simpa using hxle)]
        exact ih hsort' v h'

/-- With a sorted per-tick input buffer, the `get`-then-reverse-scan of
lines 174-180 selects exactly the entry with the greatest tick at or
before the requested one ("the nearest earlier buffered input"). -/
theorem chooseInput_greatest (ipt : List (Nat × Inputs)) (t : Nat)
    (hsort : Demo.KeysSorted ipt) :
    chooseInput ipt t = ((ipt.filter (fun p => decide (p.1 ≤ t))).getLast?).map (·.2) := by
  unfold chooseInput
  cases hl : SG.lookup ipt t with
  | none =>
    unfold nearestAtMost
    rw [find?_reverse]
  | some v =>
    rw [lookup_filter_getLast t ipt hsort v hl]
    rfl

end Client

namespace Client

/-- A physics step whose authoritative effect is visible (it toggles
the stage's match flag), to separate `tick()` from `pred_tick`. -/
def cexPhysics : SG.Physics :=
  ⟨fun _ s => ({ s with matchActive := !s.matchActive }, []), fun s _ _ => s, id⟩

def cexEnv : Env :=
  ⟨cexPhysics, fun _ d => some d, fun a _ => a, id, fun g _ => some g,
   fun g _ _ => g, 50, fun _ _ => 0, fun t _ _ _ _ _ => t⟩

def cexG : SG.GameState :=
  ⟨⟨[(0, ⟨false, []⟩)], []⟩, ⟨[(0, ⟨false, []⟩)], []⟩, []⟩

/-- The replay loop as the claim states it: one `pred_tick` per
replayed tick with that tick's buffered input (under any conversion of
buffered inputs to prediction inputs). -/
def replayLoopSpecPredTick (ph : SG.Physics)
    (toPredInp : Inputs → List (Nat × SG.CharacterPredictionInput))
    (ipt : List (Nat × Inputs)) (minTick maxTick : Nat) (g : SG.GameState) : SG.GameState :=
  (List.range' minTick (maxTick - minTick)).foldl
    (fun g newTick =>
      match chooseInput ipt (newTick + 1) with
      | some inp => SG.pred_tick ph g (toPredInp inp)
      | none => SG.pred_tick ph g [])
    g

/-- C6 counterexample: the source replay loop (network_logic.rs:170-212)
calls the authoritative `tick()` per replayed tick, not `pred_tick` as
the claim states: replaying one tick at the concrete state `cexG`, the
source loop advances the authoritative copy and leaves the prediction
copy alone, while a pred_tick-per-tick replay does the opposite — the
results differ. -/
theorem replay_calls_tick_not_pred_tick :
    replayLoop cexEnv [] 3 4 cexG
      ≠ replayLoopSpecPredTick cexPhysics (fun _ => []) [] 3 4 cexG := by
  decide

end Client

namespace Client

/-- C6 (amended): whenever a newly applied server snapshot's tick is
strictly less than the locally predicted tick, the handler replays
every buffered local input tick from
`max(local_predicted - 3 seconds' worth of ticks, server_tick)` up to
the previous predicted tick, once per replayed tick applying that
tick's buffered input — falling back to the nearest earlier buffered
input when the tick has none — and advancing the AUTHORITATIVE copy by
one `tick()` (not `pred_tick`, see the counterexample); the 3-second
clamp bounds the number of replayed ticks by `3 * ticks_per_second`,
and the predicted tick is unchanged by the replay. -/
theorem reconciliation_replay_behavior (env : Env) (ts : Nat) (msg : SnapMsg)
    (st : ClientState) (snapshotBytes : List Nat) (snapId mono : Nat) (g : SG.GameState)
    (hres : resolveSnapshot env st msg = some (snapshotBytes, snapId, mono))
    (hgate : ∀ id, st.handledSnapId = some id → id < snapId)
    (hbuild : env.build st.game snapshotBytes = some g)
    (hbehind : mono < st.predictedTick) :
    (∃ st', on_msg_snapshot env ts msg st = some st' ∧
        st'.game = replayLoop env
            (st.inputPerTick.dropWhile (fun p => decide (p.1 < mono)))
            (max (st.predictedTick - env.tickSpeed * 3) mono) st.predictedTick g ∧
        st'.predictedTick = st.predictedTick ∧
        st'.handledSnapId = some snapId) ∧
    st.predictedTick - max (st.predictedTick - env.tickSpeed * 3) mono ≤ env.tickSpeed * 3 ∧
    (∀ (ipt : List (Nat × Inputs)) (t : Nat), Demo.KeysSorted ipt →
      chooseInput ipt t = ((ipt.filter (fun p => decide (p.1 ≤ t))).getLast?).map (·.2)) := by
  refine ⟨?_, by omega, fun ipt t hs => chooseInput_greatest ipt t hs⟩
  have hres' : resolveSnapshot env
      { st with ackState := env.processAcks st.ackState msg.inputAck } msg
      = some (snapshotBytes, snapId, mono) := hres
  have hstale : (match st.handledSnapId with
      | some id => decide (snapId ≤ id)
      | none => false) = false := by
    cases hh : st.handledSnapId with
    | none => rfl
    | some id =>
      have := hgate id hh
      simp only []
      exact decide_eq_false (by omega)
  have harith : min st.predictedTick (max (st.predictedTick - env.tickSpeed * 3) mono)
      = max (st.predictedTick - env.tickSpeed * 3) mono := by omega
  have hmax : max mono st.predictedTick = st.predictedTick :=
    Nat.max_eq_right (Nat.le_of_lt hbehind)
  unfold on_msg_snapshot
  simp only [hres']
  simp only [hstale, Bool.false_eq_true, if_false, hbuild]
  simp only [hmax, harith, if_pos hbehind]
  refine ⟨_, rfl, ?_, rfl, ?_⟩
  · cases hd : msg.asDiff <;> simp [hd]
  · cases hd : msg.asDiff <;> simp [hd]

end Client

namespace Client

def exState6 : ClientState := ⟨SG.emptyGameState, 5, none, [], [], [], 0, 0, 0, 0⟩

def exMsgBehind : SnapMsg := ⟨0, [1], 3, 9, none, false, []⟩

/-- Witness for C6 (amended): a client predicted up to tick 5 receives
an applicable snapshot at tick 3; the handler applies it and replays
via the authoritative tick over the clamped range. -/
theorem reconciliation_replay_witness :
    (∃ st', on_msg_snapshot exEnv 0 exMsgBehind exState6 = some st' ∧
        st'.game = replayLoop exEnv
            (exState6.inputPerTick.dropWhile (fun p => decide (p.1 < 3)))
            (max (exState6.predictedTick - exEnv.tickSpeed * 3) 3) exState6.predictedTick
            exState6.game ∧
        st'.predictedTick = exState6.predictedTick ∧
        st'.handledSnapId = some 9) ∧
    exState6.predictedTick - max (exState6.predictedTick - exEnv.tickSpeed * 3) 3
      ≤ exEnv.tickSpeed * 3 ∧
    (∀ (ipt : List (Nat × Inputs)) (t : Nat), Demo.KeysSorted ipt →
      chooseInput ipt t = ((ipt.filter (fun p => decide (p.1 ≤ t))).getLast?).map (·.2)) :=
  reconciliation_replay_behavior exEnv 0 exMsgBehind exState6 [1] 9 3 exState6.game
    rfl (fun id h => nomatch h) rfl (by decide)

end Client
